import Mathlib

/-!
Verification of the TodoMaster task ranking and filtering engine
(`src/utils/sortAlgorithm.ts`) against its natural-language specification.

Timestamps are modelled as integers counting milliseconds since the Unix
epoch (the value of `new Date(iso).getTime()` for a parsed ISO string).
`date-fns`' `differenceInHours` truncates the fractional hour toward zero,
which is `Int.tdiv` on the millisecond difference.

Scores are modelled as real numbers; `Number.prototype.toFixed(4)` followed
by `parseFloat` is modelled as rounding to 4 decimal places with ties away
from zero. The smart-sort comparator works on the cached `sortScore` field,
modelled as an optional rational.
-/

namespace TodoMaster

/-- The four priority levels of `types/index.ts`. -/
inductive Priority
  | low
  | medium
  | high
  | critical
  deriving DecidableEq

/-- The eight built-in categories of `types/index.ts`. -/
inductive Category
  | personal
  | work
  | health
  | finance
  | education
  | shopping
  | travel
  | other
  deriving DecidableEq

/-- The `Task` record of `types/index.ts`.  Timestamp-valued fields hold the
epoch milliseconds of the stored ISO strings; `sortScore` is the optional
cached smart score. -/
structure Task where
  id : String
  userId : String
  title : String
  description : String
  dateTime : Int
  deadline : Int
  priority : Priority
  category : Category
  tags : List String
  completed : Bool
  createdAt : Int
  updatedAt : Int
  sortScore : Option ℚ := none
  deriving DecidableEq

/-- The status component of `TaskFilter`: `'all' | 'active' | 'completed'`. -/
inductive StatusFilter
  | all
  | active
  | completed
  deriving DecidableEq

/-- The `TaskFilter` record of `types/index.ts`.  The `'all'` members of the
priority and category unions are modelled by `none`; `tag : string | null`
is modelled by an optional string. -/
structure TaskFilter where
  status : StatusFilter
  priority : Option Priority
  category : Option Category
  searchQuery : String
  tag : Option String
  deriving DecidableEq

/-- The `SortOrder` union of `types/index.ts`. -/
inductive SortOrder
  | smart
  | deadline
  | priority
  | createdAt
  | alpha
  deriving DecidableEq

/-- The `PRIORITY_WEIGHTS` table of `sortAlgorithm.ts`. -/
def PRIORITY_WEIGHTS : Priority → ℚ
  | .critical => 4
  | .high => 3
  | .medium => 2
  | .low => 1

/-- `date-fns` `differenceInHours(dateLeft, dateRight)` with the default
`trunc` rounding: the whole number of hours in the millisecond difference,
truncated toward zero. -/
def differenceInHours (dateLeft dateRight : Int) : Int :=
  Int.tdiv (dateLeft - dateRight) 3600000

/-- `deadlineUrgency` of `sortAlgorithm.ts`.  The source reads the wall
clock via `new Date()`; the embedding passes that instant as `now`. -/
noncomputable def deadlineUrgency (deadlineISO : Int) (now : Int) : ℝ :=
  let hoursLeft := differenceInHours deadlineISO now
  if hoursLeft ≤ 0 then 1.0
  else
    let k : ℝ := 0.007
    Real.exp (-k * (hoursLeft : ℝ))

/-- `ageBoost` of `sortAlgorithm.ts` (again with `new Date()` passed in as
`now`).  Note the source does not clamp `ageHours` from below. -/
def ageBoost (createdAtISO : Int) (now : Int) : ℚ :=
  let ageHours := differenceInHours now createdAtISO
  let maxAgeHours : ℚ := 30 * 24
  min ((ageHours : ℚ) / maxAgeHours) 1.0

/-- `parseFloat(x.toFixed(4))`: rounding to four decimal places, ties away
from zero (ECMAScript `toFixed` rounds the absolute value half-up). -/
noncomputable def toFixed4 (x : ℝ) : ℝ :=
  if x < 0 then -((⌊(-x) * 10000 + 1 / 2⌋ : ℝ) / 10000)
  else (⌊x * 10000 + 1 / 2⌋ : ℝ) / 10000

/-- `calculateSmartScore` of `sortAlgorithm.ts`. -/
noncomputable def calculateSmartScore (task : Task) (now : Int) : ℝ :=
  if task.completed then -1
  else
    let priorityNorm : ℝ := (PRIORITY_WEIGHTS task.priority : ℝ) / 4
    let dlUrgency : ℝ := deadlineUrgency task.deadline now
    let age : ℝ := ((ageBoost task.createdAt now : ℚ) : ℝ)
    let raw := priorityNorm * 0.40 + dlUrgency * 0.40 + age * 0.20
    toFixed4 (raw * 10)

/-- Model of `title.localeCompare`: an implementation-defined total order on
strings, rendered as a three-valued comparison over Lean's string order. -/
def localeCompareQ (s t : String) : ℚ :=
  if s < t then -1 else if t < s then 1 else 0

/-- `getComparator` of `sortAlgorithm.ts`: the comparator value handed to
`Array.sort` (negative means `a` sorts before `b`). -/
def getComparator (order : SortOrder) (a b : Task) : ℚ :=
  if a.completed != b.completed then (if a.completed then 1 else -1)
  else
    match order with
    | .smart => (b.sortScore.getD 0) - (a.sortScore.getD 0)
    | .deadline => ((a.deadline - b.deadline : ℤ) : ℚ)
    | .priority =>
        let diff := PRIORITY_WEIGHTS b.priority - PRIORITY_WEIGHTS a.priority
        if diff ≠ 0 then diff
        else ((a.deadline - b.deadline : ℤ) : ℚ)
    | .createdAt => ((b.createdAt - a.createdAt : ℤ) : ℚ)
    | .alpha => localeCompareQ a.title b.title

/-- `a` may be placed no later than `b`: the comparator is non-positive.
This is the ordering a stable comparison sort realises for `Array.sort`. -/
def taskLE (order : SortOrder) (a b : Task) : Bool :=
  decide (getComparator order a b ≤ 0)

/-- `s.startsWith q` on character lists. -/
def chStarts : List Char → List Char → Bool
  | _, [] => true
  | [], _ :: _ => false
  | c :: cs, d :: ds => c == d && chStarts cs ds

/-- `q` occurs as a contiguous run somewhere in `s` (character lists). -/
def chHas : List Char → List Char → Bool
  | [], q => q.isEmpty
  | s@(_ :: cs), q => chStarts s q || chHas cs q

/-- JS `String.prototype.includes`. -/
def strIncludes (s q : String) : Bool :=
  chHas s.data q.data

/-- `sortAndFilterTasks` of `sortAlgorithm.ts`: the five filter stages in
source order, then the sort.  JS truthiness of `filter.tag` and
`filter.searchQuery.trim()` makes `null`/empty values skip their stages. -/
def sortAndFilterTasks (tasks : List Task) (filter : TaskFilter) (order : SortOrder) : List Task :=
  let r1 := match filter.status with
    | .active => tasks.filter fun (t : Task) => !t.completed
    | .completed => tasks.filter fun (t : Task) => t.completed
    | .all => tasks
  let r2 := match filter.priority with
    | some p => r1.filter fun (t : Task) => t.priority == p
    | none => r1
  let r3 := match filter.category with
    | some c => r2.filter fun (t : Task) => t.category == c
    | none => r2
  let r4 := match filter.tag with
    | some tg => if tg == "" then r3 else r3.filter fun (t : Task) => t.tags.contains tg
    | none => r3
  let r5 := if filter.searchQuery.trim == "" then r4
    else
      let q := filter.searchQuery.toLower.trim
      r4.filter fun (t : Task) =>
        strIncludes t.title.toLower q || strIncludes t.description.toLower q ||
          t.tags.any fun tag => strIncludes tag.toLower q
  r5.mergeSort (taskLE order)

/-! ### Facts about truncating division -/

theorem tdiv_nonpos_of_nonpos {a b : Int} (ha : a ≤ 0) (hb : 0 ≤ b) :
    a.tdiv b ≤ 0 := by
  have h := Int.tdiv_nonneg (a := -a) (b := b) (by omega) hb
  rw [Int.neg_tdiv] at h
  omega

theorem tdiv_le_tdiv_of_le {a b c : Int} (hc : 0 < c) (h : a ≤ b) :
    a.tdiv c ≤ b.tdiv c := by
  rcases le_or_lt 0 a with ha | ha
  · have hb : 0 ≤ b := le_trans ha h
    rw [Int.tdiv_eq_ediv ha hc.le, Int.tdiv_eq_ediv hb hc.le]
    exact Int.ediv_le_ediv hc h
  · rcases le_or_lt 0 b with hb | hb
    · exact le_trans (tdiv_nonpos_of_nonpos ha.le hc.le) (Int.tdiv_nonneg hb hc.le)
    · have hbn : (0:Int) ≤ -b := by omega
      have han : (0:Int) ≤ -a := by omega
      have key := Int.ediv_le_ediv hc (show -b ≤ -a by omega)
      rw [← Int.tdiv_eq_ediv hbn hc.le, ← Int.tdiv_eq_ediv han hc.le,
        Int.neg_tdiv, Int.neg_tdiv] at key
      omega

/-! ### Evaluating and bounding `toFixed4` -/

theorem toFixed4_eval_nonneg {x : ℝ} {n : ℤ} (h0 : 0 ≤ x)
    (h1 : (n : ℝ) ≤ x * 10000 + 1 / 2) (h2 : x * 10000 + 1 / 2 < n + 1) :
    toFixed4 x = (n : ℝ) / 10000 := by
  have hf : ⌊x * 10000 + 1 / 2⌋ = n := Int.floor_eq_iff.mpr ⟨h1, by linarith⟩
  rw [toFixed4, if_neg (not_lt.mpr h0), hf]

theorem toFixed4_eval_neg {x : ℝ} {n : ℤ} (h0 : x < 0)
    (h1 : (n : ℝ) ≤ -x * 10000 + 1 / 2) (h2 : -x * 10000 + 1 / 2 < n + 1) :
    toFixed4 x = -((n : ℝ) / 10000) := by
  have hf : ⌊-x * 10000 + 1 / 2⌋ = n := Int.floor_eq_iff.mpr ⟨h1, by linarith⟩
  rw [toFixed4, if_pos h0, hf]

theorem toFixed4_nonneg {x : ℝ} (h : 0 ≤ x) : 0 ≤ toFixed4 x := by
  rw [toFixed4, if_neg (not_lt.mpr h)]
  have h1 : (0:ℤ) ≤ ⌊x * 10000 + 1 / 2⌋ := Int.floor_nonneg.mpr (by linarith)
  have h2 : (0:ℝ) ≤ (⌊x * 10000 + 1 / 2⌋ : ℝ) := by exact_mod_cast h1
  linarith

theorem toFixed4_le_ten {x : ℝ} (h : x ≤ 10) : toFixed4 x ≤ 10 := by
  rw [toFixed4]
  split_ifs with hx
  · have h1 : (0:ℤ) ≤ ⌊-x * 10000 + 1 / 2⌋ := Int.floor_nonneg.mpr (by nlinarith)
    have h2 : (0:ℝ) ≤ (⌊-x * 10000 + 1 / 2⌋ : ℝ) := by exact_mod_cast h1
    rw [neg_mul] at h2 ⊢
    linarith
  · have h1 : ⌊x * 10000 + 1 / 2⌋ < 100001 := Int.floor_lt.mpr (by push_cast; linarith)
    have h2 : (⌊x * 10000 + 1 / 2⌋ : ℝ) ≤ 100000 := by exact_mod_cast (by omega : ⌊x * 10000 + 1 / 2⌋ ≤ 100000)
    linarith

theorem toFixed4_mono {x y : ℝ} (h : x ≤ y) : toFixed4 x ≤ toFixed4 y := by
  rw [toFixed4, toFixed4]
  split_ifs with hx hy hy
  · have hfl : ⌊-y * 10000 + 1 / 2⌋ ≤ ⌊-x * 10000 + 1 / 2⌋ := Int.floor_mono (by linarith)
    have hfl' : (⌊-y * 10000 + 1 / 2⌋ : ℝ) ≤ (⌊-x * 10000 + 1 / 2⌋ : ℝ) := by exact_mod_cast hfl
    linarith
  · have h1 : (0:ℤ) ≤ ⌊-x * 10000 + 1 / 2⌋ := Int.floor_nonneg.mpr (by linarith)
    have h2 : (0:ℤ) ≤ ⌊y * 10000 + 1 / 2⌋ := Int.floor_nonneg.mpr (by linarith)
    have h1' : (0:ℝ) ≤ (⌊-x * 10000 + 1 / 2⌋ : ℝ) := by exact_mod_cast h1
    have h2' : (0:ℝ) ≤ (⌊y * 10000 + 1 / 2⌋ : ℝ) := by exact_mod_cast h2
    linarith
  · exact absurd (lt_of_le_of_lt h hy) (not_lt.mpr (not_lt.mp hx))
  · have hfl : ⌊x * 10000 + 1 / 2⌋ ≤ ⌊y * 10000 + 1 / 2⌋ := Int.floor_mono (by linarith)
    have hfl' : (⌊x * 10000 + 1 / 2⌋ : ℝ) ≤ (⌊y * 10000 + 1 / 2⌋ : ℝ) := by exact_mod_cast hfl
    linarith

/-- The score of an incomplete task, written out as the weighted sum the
source computes. -/
theorem calculateSmartScore_eq (t : Task) (now : Int) (h : t.completed = false) :
    calculateSmartScore t now =
      toFixed4 ((((PRIORITY_WEIGHTS t.priority : ℝ) / 4) * 0.40 +
        deadlineUrgency t.deadline now * 0.40 +
        ((ageBoost t.createdAt now : ℚ) : ℝ) * 0.20) * 10) := by
  simp [calculateSmartScore, h]

/-- The age component once the whole-hour age is known. -/
theorem ageBoost_eq {c now h : Int} (hh : differenceInHours now c = h) :
    ageBoost c now = min ((h : ℚ) / 720) 1 := by
  simp only [ageBoost, hh]
  norm_num

/-- The deadline component of any at-or-past deadline is exactly 1. -/
theorem deadlineUrgency_of_past {d now : Int} (hd : d ≤ now) :
    deadlineUrgency d now = 1 := by
  have h1 : differenceInHours d now ≤ 0 :=
    tdiv_nonpos_of_nonpos (by omega) (by norm_num)
  simp only [deadlineUrgency]
  rw [if_pos h1]
  norm_num

/-! ### Concrete fixture tasks -/

/-- A completed sample task with a rich set of fields. -/
def sampleDone : Task :=
  { id := "t1", userId := "u1", title := "ship report", description := "weekly status",
    dateTime := 0, deadline := -3600000, priority := .critical, category := .work,
    tags := ["urgent"], completed := true, createdAt := -7200000, updatedAt := 0,
    sortScore := some 5 }

/-- An incomplete task whose deadline passed one hour ago. -/
def sampleLate : Task :=
  { id := "t2", userId := "u1", title := "pay rent", description := "monthly transfer",
    dateTime := 0, deadline := -3600000, priority := .high, category := .finance,
    tags := [], completed := false, createdAt := -7200000, updatedAt := 0,
    sortScore := none }

/-- The Scenario A task: critical, one hour overdue, created one hour ago. -/
def scenarioATask : Task :=
  { id := "a", userId := "u1", title := "Scenario A", description := "",
    dateTime := 0, deadline := -3600000, priority := .critical, category := .work,
    tags := [], completed := false, createdAt := -3600000, updatedAt := 0,
    sortScore := none }

/-- An incomplete low-priority task whose `createdAt` lies 8760 hours (one
year) in the future of the reference instant 0. -/
def futureTask : Task :=
  { id := "f", userId := "u1", title := "from the future", description := "",
    dateTime := 0, deadline := 0, priority := .low, category := .other,
    tags := [], completed := false, createdAt := 31536000000, updatedAt := 0,
    sortScore := none }

/-! ### The five filter predicates of the claim, as the code applies them -/

/-- The status restriction as a predicate. -/
def statusKeep (f : TaskFilter) (t : Task) : Bool :=
  match f.status with
  | .all => true
  | .active => !t.completed
  | .completed => t.completed

/-- The priority restriction as a predicate. -/
def priorityKeep (f : TaskFilter) (t : Task) : Bool :=
  match f.priority with
  | none => true
  | some p => t.priority == p

/-- The category restriction as a predicate. -/
def categoryKeep (f : TaskFilter) (t : Task) : Bool :=
  match f.category with
  | none => true
  | some c => t.category == c

/-- The tag restriction: exact, case-sensitive membership in the tag list.
A null or empty tag is falsy in JS, so the restriction is then inactive. -/
def tagKeep (f : TaskFilter) (t : Task) : Bool :=
  match f.tag with
  | none => true
  | some tg => tg == "" || t.tags.contains tg

/-- The free-text search: trimmed, lower-cased substring match against the
title, the description, or any tag; an all-whitespace query is inactive. -/
def searchKeep (f : TaskFilter) (t : Task) : Bool :=
  if f.searchQuery.trim == "" then true
  else
    let q := f.searchQuery.toLower.trim
    strIncludes t.title.toLower q || strIncludes t.description.toLower q ||
      t.tags.any fun tag => strIncludes tag.toLower q

/-! ### Total-preorder facts about the comparator -/

theorem localeCompareQ_nonpos {s t : String} :
    localeCompareQ s t ≤ 0 ↔ s ≤ t := by
  unfold localeCompareQ
  split_ifs with h1 h2
  · exact ⟨fun _ => le_of_lt h1, fun _ => by norm_num⟩
  · exact ⟨fun h => by norm_num at h, fun h => absurd h2 (not_lt.mpr h)⟩
  · exact ⟨fun _ => not_lt.mp h2, fun _ => le_refl 0⟩

/-- Among tasks of equal completion state the comparator is total. -/
theorem comparator_total_same (order : SortOrder) (a b : Task)
    (h : a.completed = b.completed) :
    getComparator order a b ≤ 0 ∨ getComparator order b a ≤ 0 := by
  have h1 : (a.completed != b.completed) = false := by rw [h, bne_self_eq_false]
  have h2 : (b.completed != a.completed) = false := by rw [← h, bne_self_eq_false]
  cases order
  case smart =>
    simp only [getComparator, h1, h2, Bool.false_eq_true, if_false]
    rcases le_total (Option.getD a.sortScore 0) (Option.getD b.sortScore 0) with hle | hle
    · right; linarith
    · left; linarith
  case deadline =>
    simp only [getComparator, h1, h2, Bool.false_eq_true, if_false]
    rcases le_total a.deadline b.deadline with hle | hle
    · left; exact_mod_cast sub_nonpos.mpr hle
    · right; exact_mod_cast sub_nonpos.mpr hle
  case priority =>
    simp only [getComparator, h1, h2, Bool.false_eq_true, if_false]
    by_cases hd : PRIORITY_WEIGHTS b.priority - PRIORITY_WEIGHTS a.priority = 0
    · rw [if_neg (by rw [hd]; exact not_ne_iff.mpr rfl),
        if_neg (by rw [show PRIORITY_WEIGHTS a.priority - PRIORITY_WEIGHTS b.priority = 0 by linarith]; exact not_ne_iff.mpr rfl)]
      rcases le_total a.deadline b.deadline with hle | hle
      · left; exact_mod_cast sub_nonpos.mpr hle
      · right; exact_mod_cast sub_nonpos.mpr hle
    · rw [if_pos hd, if_pos (by intro hz; exact hd (by linarith))]
      rcases le_total (PRIORITY_WEIGHTS a.priority) (PRIORITY_WEIGHTS b.priority) with hle | hle
      · right; linarith
      · left; linarith
  case createdAt =>
    simp only [getComparator, h1, h2, Bool.false_eq_true, if_false]
    rcases le_total a.createdAt b.createdAt with hle | hle
    · right; exact_mod_cast sub_nonpos.mpr hle
    · left; exact_mod_cast sub_nonpos.mpr hle
  case alpha =>
    simp only [getComparator, h1, h2, Bool.false_eq_true, if_false]
    rcases le_total a.title b.title with hle | hle
    · left; exact localeCompareQ_nonpos.mpr hle
    · right; exact localeCompareQ_nonpos.mpr hle

/-- Among tasks of equal completion state the comparator is transitive. -/
theorem comparator_trans_same (order : SortOrder) (a b c : Task)
    (hab : a.completed = b.completed) (hbc : b.completed = c.completed)
    (h1 : getComparator order a b ≤ 0) (h2 : getComparator order b c ≤ 0) :
    getComparator order a c ≤ 0 := by
  have e1 : (a.completed != b.completed) = false := by rw [hab, bne_self_eq_false]
  have e2 : (b.completed != c.completed) = false := by rw [hbc, bne_self_eq_false]
  have e3 : (a.completed != c.completed) = false := by
    rw [hab, hbc, bne_self_eq_false]
  cases order
  case smart =>
    simp only [getComparator, e1, e2, e3, Bool.false_eq_true, if_false] at h1 h2 ⊢
    linarith
  case deadline =>
    simp only [getComparator, e1, e2, e3, Bool.false_eq_true, if_false] at h1 h2 ⊢
    have g1 : a.deadline - b.deadline ≤ 0 := by exact_mod_cast h1
    have g2 : b.deadline - c.deadline ≤ 0 := by exact_mod_cast h2
    have : a.deadline - c.deadline ≤ 0 := by omega
    exact_mod_cast this
  case priority =>
    simp only [getComparator, e1, e2, e3, Bool.false_eq_true, if_false] at h1 h2 ⊢
    by_cases hba : PRIORITY_WEIGHTS b.priority - PRIORITY_WEIGHTS a.priority = 0
    · rw [if_neg (by rw [hba]; exact not_ne_iff.mpr rfl)] at h1
      by_cases hcb : PRIORITY_WEIGHTS c.priority - PRIORITY_WEIGHTS b.priority = 0
      · rw [if_neg (by rw [hcb]; exact not_ne_iff.mpr rfl)] at h2
        rw [if_neg (by rw [show PRIORITY_WEIGHTS c.priority - PRIORITY_WEIGHTS a.priority = 0 by linarith]; exact not_ne_iff.mpr rfl)]
        have g1 : a.deadline - b.deadline ≤ 0 := by exact_mod_cast h1
        have g2 : b.deadline - c.deadline ≤ 0 := by exact_mod_cast h2
        have : a.deadline - c.deadline ≤ 0 := by omega
        exact_mod_cast this
      · rw [if_pos hcb] at h2
        have hlt : PRIORITY_WEIGHTS c.priority - PRIORITY_WEIGHTS b.priority < 0 :=
          lt_of_le_of_ne h2 hcb
        rw [if_pos (by intro hz; nlinarith)]
        linarith
    · rw [if_pos hba] at h1
      have hlt1 : PRIORITY_WEIGHTS b.priority - PRIORITY_WEIGHTS a.priority < 0 :=
        lt_of_le_of_ne h1 hba
      by_cases hcb : PRIORITY_WEIGHTS c.priority - PRIORITY_WEIGHTS b.priority = 0
      · rw [if_pos (by intro hz; nlinarith)]
        linarith
      · rw [if_pos hcb] at h2
        have hlt2 : PRIORITY_WEIGHTS c.priority - PRIORITY_WEIGHTS b.priority < 0 :=
          lt_of_le_of_ne h2 hcb
        rw [if_pos (by intro hz; nlinarith)]
        linarith
  case createdAt =>
    simp only [getComparator, e1, e2, e3, Bool.false_eq_true, if_false] at h1 h2 ⊢
    have g1 : b.createdAt - a.createdAt ≤ 0 := by exact_mod_cast h1
    have g2 : c.createdAt - b.createdAt ≤ 0 := by exact_mod_cast h2
    have : c.createdAt - a.createdAt ≤ 0 := by omega
    exact_mod_cast this
  case alpha =>
    simp only [getComparator, e1, e2, e3, Bool.false_eq_true, if_false] at h1 h2 ⊢
    exact localeCompareQ_nonpos.mpr
      (le_trans (localeCompareQ_nonpos.mp h1) (localeCompareQ_nonpos.mp h2))

/-- The boolean order used for sorting is total. -/
theorem taskLE_total (order : SortOrder) (a b : Task) :
    (taskLE order a b || taskLE order b a) = true := by
  simp only [taskLE, Bool.or_eq_true, decide_eq_true_eq]
  by_cases hab : a.completed = b.completed
  · exact comparator_total_same order a b hab
  · cases ha : a.completed
    · left
      simp [getComparator, ha, show b.completed = true by
        cases hb : b.completed
        · exact absurd (ha.trans hb.symm) hab
        · rfl]
    · right
      simp [getComparator, ha, show b.completed = false by
        cases hb : b.completed
        · rfl
        · exact absurd (ha.trans hb.symm) hab]

/-- The boolean order used for sorting is transitive. -/
theorem taskLE_trans (order : SortOrder) (a b c : Task)
    (h1 : taskLE order a b = true) (h2 : taskLE order b c = true) :
    taskLE order a c = true := by
  simp only [taskLE, decide_eq_true_eq] at h1 h2 ⊢
  cases hca : a.completed <;> cases hcb : b.completed <;> cases hcc : c.completed
  · exact comparator_trans_same order a b c (hca.trans hcb.symm) (hcb.trans hcc.symm) h1 h2
  · simp [getComparator, hca, hcc]
  · simp [getComparator, hcb, hcc] at h2
    linarith
  · simp [getComparator, hca, hcc]
  · simp [getComparator, hca, hcb] at h1
    linarith
  · simp [getComparator, hca, hcb] at h1
    linarith
  · simp [getComparator, hcb, hcc] at h2
    linarith
  · exact comparator_trans_same order a b c (hca.trans hcb.symm) (hcb.trans hcc.symm) h1 h2

/-- An incomplete task due two hours after instant 0. -/
def futureA : Task :=
  { id := "m1", userId := "u1", title := "mow lawn", description := "",
    dateTime := 0, deadline := 7200000, priority := .medium, category := .personal,
    tags := [], completed := false, createdAt := -3600000, updatedAt := 0,
    sortScore := none }

/-- The same task with the deadline pushed one hour later. -/
def futureB : Task :=
  { futureA with deadline := 10800000 }

/-- The two-hour task carrying a cached smart score of 5. -/
def scoredTask : Task :=
  { futureA with sortScore := some 5 }

/-! ### Claim theorems -/

/-- C1: every task with `completed = true` scores exactly -1, regardless of
the reference time, the priority, or the deadline. -/
theorem calculateSmartScore_completed (t : Task) (now : Int)
    (h : t.completed = true) : calculateSmartScore t now = -1 := by
  simp [calculateSmartScore, h]

/-- Witness for C1: the concrete completed task at a concrete instant. -/
theorem calculateSmartScore_completed_witness :
    sampleDone.completed = true ∧ calculateSmartScore sampleDone 12345 = -1 :=
  ⟨rfl, calculateSmartScore_completed sampleDone 12345 rfl⟩

/-- C9: a deadline strictly inside the hour after `now` gives a millisecond
difference that truncates to zero whole hours, so the overdue branch fires
and the component saturates at 1.0; moreover the component is a step
function of the whole-hour difference. -/
theorem deadlineUrgency_final_hour_step (d1 d2 now : Int)
    (h1 : now < d1) (h2 : d1 < now + 3600000) :
    deadlineUrgency d1 now = 1 ∧
    (differenceInHours d1 now = differenceInHours d2 now →
      deadlineUrgency d2 now = deadlineUrgency d1 now) := by
  have h0 : (0:Int) ≤ d1 - now := by omega
  have hlt : d1 - now < 3600000 := by omega
  have hz : differenceInHours d1 now = 0 := by
    show (d1 - now).tdiv 3600000 = 0
    exact Int.tdiv_eq_zero_of_lt h0 hlt
  constructor
  · simp only [deadlineUrgency, hz]
    norm_num
  · intro he
    simp only [deadlineUrgency, ← he]

/-- C3: for every incomplete task whose deadline is at or before `now`, the
deadline component is exactly 1.0 and the total score reduces to a function
of the priority and age components alone. -/
theorem overdue_component_saturates (t : Task) (now : Int)
    (hc : t.completed = false) (hd : t.deadline ≤ now) :
    deadlineUrgency t.deadline now = 1 ∧
    calculateSmartScore t now =
      toFixed4 ((((PRIORITY_WEIGHTS t.priority : ℝ) / 4) * 0.40 + 1 * 0.40 +
        ((ageBoost t.createdAt now : ℚ) : ℝ) * 0.20) * 10) := by
  have hdl := deadlineUrgency_of_past hd
  exact ⟨hdl, by rw [calculateSmartScore_eq t now hc, hdl]⟩

/-- Witness for C3: the one-hour-overdue sample task at instant 0. -/
theorem overdue_component_saturates_witness :
    (sampleLate.completed = false ∧ sampleLate.deadline ≤ 0) ∧
      (deadlineUrgency sampleLate.deadline 0 = 1 ∧
        calculateSmartScore sampleLate 0 =
          toFixed4 ((((PRIORITY_WEIGHTS sampleLate.priority : ℝ) / 4) * 0.40 + 1 * 0.40 +
            ((ageBoost sampleLate.createdAt 0 : ℚ) : ℝ) * 0.20) * 10)) :=
  ⟨⟨rfl, by decide⟩, overdue_component_saturates sampleLate 0 rfl (by decide)⟩

/-- C4 (amended): Scenario A yields deadline component 1.0, priority
component 1.0, age component 1/720, and total score 8.0028 — not the
spec's ≈8.0003, which mis-evaluates its own formula. -/
theorem scenario_a_score (t : Task) (now : Int)
    (hp : t.priority = .critical) (hd : t.deadline = now - 3600000)
    (hca : t.createdAt = now - 3600000) (hc : t.completed = false) :
    deadlineUrgency t.deadline now = 1 ∧
    (PRIORITY_WEIGHTS t.priority : ℝ) / 4 = 1 ∧
    ageBoost t.createdAt now = 1 / 720 ∧
    calculateSmartScore t now = 8.0028 := by
  have hdl : deadlineUrgency t.deadline now = 1 :=
    deadlineUrgency_of_past (by omega)
  have hpw : (PRIORITY_WEIGHTS t.priority : ℝ) / 4 = 1 := by
    rw [hp]; norm_num [PRIORITY_WEIGHTS]
  have hhours : differenceInHours now t.createdAt = 1 := by
    rw [hca]
    show (now - (now - 3600000)).tdiv 3600000 = 1
    have hh : now - (now - 3600000) = 3600000 := by ring
    rw [hh]
    decide
  have hage : ageBoost t.createdAt now = 1 / 720 := by
    simp only [ageBoost, hhours]
    norm_num
  refine ⟨hdl, hpw, hage, ?_⟩
  rw [calculateSmartScore_eq t now hc, hdl, hp, hage]
  have hx : (((PRIORITY_WEIGHTS Priority.critical : ℝ) / 4) * 0.40 + 1 * 0.40 +
      (((1 : ℚ) / 720 : ℚ) : ℝ) * 0.20) * 10 = 8 + 1 / 360 := by
    push_cast [PRIORITY_WEIGHTS]
    norm_num
  rw [hx, toFixed4_eval_nonneg (n := 80028) (by norm_num) (by norm_num) (by norm_num)]
  norm_num

/-- Witness for C4's amended theorem: the concrete Scenario A task at
instant 0. -/
theorem scenario_a_score_witness :
    (scenarioATask.priority = Priority.critical ∧
      scenarioATask.deadline = 0 - 3600000 ∧
      scenarioATask.createdAt = 0 - 3600000 ∧
      scenarioATask.completed = false) ∧
    (deadlineUrgency scenarioATask.deadline 0 = 1 ∧
      (PRIORITY_WEIGHTS scenarioATask.priority : ℝ) / 4 = 1 ∧
      ageBoost scenarioATask.createdAt 0 = 1 / 720 ∧
      calculateSmartScore scenarioATask 0 = 8.0028) :=
  ⟨⟨rfl, by decide, by decide, rfl⟩,
    scenario_a_score scenarioATask 0 rfl (by decide) (by decide) rfl⟩

/-- C4 counterexample: at the concrete Scenario A input the code returns
8.0028, which is not approximately 8.0003 (it is 0.0025 away). -/
theorem scenario_a_not_8_0003 :
    calculateSmartScore scenarioATask 0 = 8.0028 ∧
    calculateSmartScore scenarioATask 0 ≠ 8.0003 ∧
    (0.002 : ℝ) ≤ |calculateSmartScore scenarioATask 0 - 8.0003| := by
  have hdl : deadlineUrgency scenarioATask.deadline 0 = 1 :=
    deadlineUrgency_of_past (by decide)
  have hage : ageBoost scenarioATask.createdAt 0 = 1 / 720 := by
    rw [ageBoost_eq (h := 1) (by decide), min_eq_left (by norm_num)]
    norm_num
  have hs : calculateSmartScore scenarioATask 0 = 8.0028 := by
    rw [calculateSmartScore_eq scenarioATask 0 rfl, hdl, hage]
    have hx : (((PRIORITY_WEIGHTS scenarioATask.priority : ℝ) / 4) * 0.40 + 1 * 0.40 +
        (((1 : ℚ) / 720 : ℚ) : ℝ) * 0.20) * 10 = 8 + 1 / 360 := by
      push_cast [scenarioATask, PRIORITY_WEIGHTS]
      norm_num
    rw [hx, toFixed4_eval_nonneg (n := 80028) (by norm_num) (by norm_num) (by norm_num)]
    norm_num
  refine ⟨hs, by rw [hs]; norm_num, ?_⟩
  rw [hs]
  have habs : (8.0028 : ℝ) - 8.0003 = 0.0025 := by norm_num
  rw [habs, abs_of_nonneg (by norm_num)]
  norm_num

/-- C2: the source never clamps `ageHours` from below, so a task whose
`createdAt` lies in the future of `now` receives a negative age component
of unbounded size; here the score is -19.3333, far below the claimed
lower bound of -1 (and below the code's own documented range [0..10]). -/
theorem smart_score_below_neg_one :
    calculateSmartScore futureTask 0 = -(19.3333 : ℝ) ∧
    calculateSmartScore futureTask 0 < -1 := by
  have hdl : deadlineUrgency futureTask.deadline 0 = 1 :=
    deadlineUrgency_of_past (by decide)
  have hage : ageBoost futureTask.createdAt 0 = -73 / 6 := by
    rw [ageBoost_eq (h := -8760) (by decide), min_eq_left (by norm_num)]
    norm_num
  have hs : calculateSmartScore futureTask 0 = -((193333 : ℝ) / 10000) := by
    rw [calculateSmartScore_eq futureTask 0 rfl, hdl, hage]
    have hx : (((PRIORITY_WEIGHTS futureTask.priority : ℝ) / 4) * 0.40 + 1 * 0.40 +
        (((-73 : ℚ) / 6 : ℚ) : ℝ) * 0.20) * 10 = -(58 / 3) := by
      push_cast [futureTask, PRIORITY_WEIGHTS]
      norm_num
    rw [hx, toFixed4_eval_neg (n := 193333) (by norm_num) (by norm_num) (by norm_num)]
    norm_num
  constructor
  · rw [hs]; norm_num
  · rw [hs]; norm_num

/-- Supporting fact for the age bug: whenever `createdAt` does not lie in
the future of `now`, the score does stay inside [-1, 10].  The violation
exhibited at `futureTask` therefore needs a future `createdAt`. -/
theorem smart_score_mem_Icc (t : Task) (now : Int) (h : t.createdAt ≤ now) :
    -1 ≤ calculateSmartScore t now ∧ calculateSmartScore t now ≤ 10 := by
  cases hc : t.completed
  · rw [calculateSmartScore_eq t now hc]
    have hpr : (1:ℝ)/4 ≤ (PRIORITY_WEIGHTS t.priority : ℝ)/4 ∧
        (PRIORITY_WEIGHTS t.priority : ℝ)/4 ≤ 1 := by
      cases t.priority <;> norm_num [PRIORITY_WEIGHTS]
    have hdl : 0 < deadlineUrgency t.deadline now ∧
        deadlineUrgency t.deadline now ≤ 1 := by
      simp only [deadlineUrgency]
      split_ifs with hif
      · norm_num
      · refine ⟨Real.exp_pos _, Real.exp_le_one_iff.mpr ?_⟩
        have hcast : (0:ℝ) ≤ (differenceInHours t.deadline now : ℝ) := by
          have : 0 < differenceInHours t.deadline now := by omega
          exact_mod_cast this.le
        nlinarith
    have hageQ : (0:ℚ) ≤ ageBoost t.createdAt now ∧ ageBoost t.createdAt now ≤ 1 := by
      simp only [ageBoost]
      constructor
      · apply le_min
        · have h0 : 0 ≤ differenceInHours now t.createdAt :=
            Int.tdiv_nonneg (by omega) (by norm_num)
          have h0' : (0:ℚ) ≤ (differenceInHours now t.createdAt : ℚ) := by
            exact_mod_cast h0
          positivity
        · norm_num
      · calc min ((differenceInHours now t.createdAt : ℚ) / (30 * 24)) 1.0 ≤ 1.0 :=
            min_le_right _ _
          _ = 1 := by norm_num
    have hage : (0:ℝ) ≤ ((ageBoost t.createdAt now : ℚ) : ℝ) ∧
        ((ageBoost t.createdAt now : ℚ) : ℝ) ≤ 1 := by
      constructor
      · exact_mod_cast hageQ.1
      · exact_mod_cast hageQ.2
    constructor
    · have hxnn : (0:ℝ) ≤ (((PRIORITY_WEIGHTS t.priority : ℝ)/4) * 0.40 +
          deadlineUrgency t.deadline now * 0.40 +
          ((ageBoost t.createdAt now : ℚ) : ℝ) * 0.20) * 10 := by nlinarith
      linarith [toFixed4_nonneg hxnn]
    · exact toFixed4_le_ten (by nlinarith)
  · have hm1 : calculateSmartScore t now = -1 := by simp [calculateSmartScore, hc]
    rw [hm1]
    norm_num

/-- The deadline component never increases as the deadline moves later. -/
theorem deadlineUrgency_antitone {d1 d2 now : Int} (h : d1 ≤ d2) :
    deadlineUrgency d2 now ≤ deadlineUrgency d1 now := by
  have hh : differenceInHours d1 now ≤ differenceInHours d2 now :=
    tdiv_le_tdiv_of_le (by norm_num) (by omega)
  by_cases h2 : differenceInHours d2 now ≤ 0
  · have h1 : differenceInHours d1 now ≤ 0 := le_trans hh h2
    simp only [deadlineUrgency]
    rw [if_pos h1, if_pos h2]
  · by_cases h1 : differenceInHours d1 now ≤ 0
    · simp only [deadlineUrgency]
      rw [if_pos h1, if_neg h2]
      have hpos : (0:ℝ) ≤ (differenceInHours d2 now : ℝ) := by
        have : 0 < differenceInHours d2 now := by omega
        exact_mod_cast this.le
      have : Real.exp (-(0.007:ℝ) * (differenceInHours d2 now : ℝ)) ≤ 1 :=
        Real.exp_le_one_iff.mpr (by nlinarith)
      calc Real.exp (-(0.007:ℝ) * (differenceInHours d2 now : ℝ)) ≤ 1 := this
        _ = 1.0 := by norm_num
    · simp only [deadlineUrgency]
      rw [if_neg h1, if_neg h2]
      apply Real.exp_le_exp.mpr
      have hc : (differenceInHours d1 now : ℝ) ≤ (differenceInHours d2 now : ℝ) := by
        exact_mod_cast hh
      nlinarith

/-- C7: for two incomplete tasks identical except the deadline, both
deadlines strictly in the future, the later deadline yields a
less-or-equal deadline component and a less-or-equal total score. -/
theorem later_deadline_le_score (a b : Task) (now : Int)
    (hc : a.completed = false) (hab : b = { a with deadline := b.deadline })
    (_hfa : now < a.deadline) (_hfb : now < b.deadline)
    (hle : a.deadline ≤ b.deadline) :
    deadlineUrgency b.deadline now ≤ deadlineUrgency a.deadline now ∧
    calculateSmartScore b now ≤ calculateSmartScore a now := by
  have hmono := @deadlineUrgency_antitone a.deadline b.deadline now hle
  refine ⟨hmono, ?_⟩
  have hcb : b.completed = false := by rw [hab]; exact hc
  rw [calculateSmartScore_eq a now hc, calculateSmartScore_eq b now hcb]
  apply toFixed4_mono
  have hpr : b.priority = a.priority := by rw [hab]
  have hca : b.createdAt = a.createdAt := by rw [hab]
  rw [hpr, hca]
  nlinarith [hmono]

/-- Witness for C7: two tasks identical except deadlines two and three
hours ahead of instant 0. -/
theorem later_deadline_le_score_witness :
    (futureA.completed = false ∧
      futureB = { futureA with deadline := futureB.deadline } ∧
      (0:Int) < futureA.deadline ∧ (0:Int) < futureB.deadline ∧
      futureA.deadline ≤ futureB.deadline) ∧
    (deadlineUrgency futureB.deadline 0 ≤ deadlineUrgency futureA.deadline 0 ∧
      calculateSmartScore futureB 0 ≤ calculateSmartScore futureA 0) :=
  ⟨⟨rfl, rfl, by decide, by decide, by decide⟩,
    later_deadline_le_score futureA futureB 0 rfl rfl (by decide) (by decide)
      (by decide)⟩

/-- C5: whatever the sort order and the filter, the engine never places a
completed task before an incomplete one. -/
theorem completed_never_before_incomplete (tasks : List Task) (f : TaskFilter)
    (order : SortOrder) :
    (sortAndFilterTasks tasks f order).Pairwise
      (fun a b => a.completed = true → b.completed = true) := by
  refine List.Pairwise.imp ?_
    (@List.sorted_mergeSort Task (taskLE order)
      (fun a b c h1 h2 => taskLE_trans order a b c h1 h2)
      (fun a b => taskLE_total order a b) _)
  intro a b hle hac
  cases hbc : b.completed
  · exfalso
    simp only [taskLE, decide_eq_true_eq] at hle
    simp [getComparator, hac, hbc] at hle
    linarith
  · rfl

set_option maxHeartbeats 1600000 in
/-- C6: a task is in the engine's output exactly when it is in the input
and passes all five filter predicates simultaneously. -/
theorem mem_sortAndFilterTasks (tasks : List Task) (f : TaskFilter)
    (order : SortOrder) (t : Task) :
    t ∈ sortAndFilterTasks tasks f order ↔
      t ∈ tasks ∧ statusKeep f t = true ∧ priorityKeep f t = true ∧
        categoryKeep f t = true ∧ tagKeep f t = true ∧ searchKeep f t = true := by
  rcases f with ⟨st, pr, cat, sq, tg⟩
  simp only [sortAndFilterTasks, List.mem_mergeSort]
  by_cases hq : sq.trim = ""
  all_goals rcases tg with _ | tg1
  all_goals try by_cases htg : tg1 = ""
  all_goals cases st
  all_goals rcases pr with _ | p
  all_goals rcases cat with _ | c
  all_goals
    simp_all [statusKeep, priorityKeep, categoryKeep, tagKeep, searchKeep,
      List.mem_filter, and_assoc]
  all_goals tauto

/-- C10: under the smart order, among tasks of equal completion state, a
task with no cached `sortScore` is compared as if its score were 0: the
comparator is positive against a positive-score task (the scoreless task
goes after it) and negative against a negative-score task (it goes
before). -/
theorem smart_missing_score_as_zero (a b : Task) (s : ℚ)
    (hcomp : a.completed = b.completed) (ha : a.sortScore = none)
    (hb : b.sortScore = some s) :
    getComparator .smart a b = s ∧
    (0 < s → 0 < getComparator .smart a b) ∧
    (s < 0 → getComparator .smart a b < 0) := by
  have hbne : (a.completed != b.completed) = false := by
    rw [hcomp, bne_self_eq_false]
  have h : getComparator .smart a b = s := by
    simp [getComparator, hbne, ha, hb]
  exact ⟨h, fun hs => by rw [h]; exact hs, fun hs => by rw [h]; exact hs⟩

/-- Witness for C10: the scoreless two-hour task against a copy carrying a
cached score of 5. -/
theorem smart_missing_score_as_zero_witness :
    (futureA.completed = scoredTask.completed ∧ futureA.sortScore = none ∧
      scoredTask.sortScore = some 5) ∧
    (getComparator .smart futureA scoredTask = 5 ∧
      ((0:ℚ) < 5 → 0 < getComparator .smart futureA scoredTask) ∧
      ((5:ℚ) < 0 → getComparator .smart futureA scoredTask < 0)) :=
  ⟨⟨rfl, rfl, rfl⟩, smart_missing_score_as_zero futureA scoredTask 5 rfl rfl rfl⟩

/-- Witness for C9 at `now = 0`: a deadline 30 minutes ahead and a second
deadline 1 millisecond ahead. -/
theorem deadlineUrgency_final_hour_step_witness :
    ((0:Int) < 1800000 ∧ (1800000:Int) < 0 + 3600000) ∧
      (deadlineUrgency 1800000 0 = 1 ∧
        (differenceInHours 1800000 0 = differenceInHours 1 0 →
          deadlineUrgency 1 0 = deadlineUrgency 1800000 0)) :=
  ⟨⟨by decide, by decide⟩,
    deadlineUrgency_final_hour_step 1800000 1 0 (by decide) (by decide)⟩

end TodoMaster
